import Mathlib

/-!
# super-swiper: shallow embedding of the stack-cursor state machine

Embedding of the SuperSwiper controller (src/unnamed/part_000, the
component file) and the card gesture surface (src/src/Card.tsx).

Controller state (from the component's hooks):
  `currentIndexRef`     — the cursor, an integer ref starting at `initialCardIndex`
  `swipedCardIndices`   — the history list of consumed indices
  `isTransitioning`     — the transition lock
-/

namespace SuperSwiper

/-- `SwipeDirection` from `src/types.ts` as actually used by the
implementation: `'left' | 'right'`. -/
inductive SwipeDirection where
  | left
  | right
deriving DecidableEq, Repr

/-- Configuration options of the controller that its state logic reads:
`cards` enters the logic only through `cards.length`, kept here as
`numCards`; the enable flags and `initialCardIndex` are as in the props. -/
structure Config where
  numCards : ℕ
  disableLeftSwipe : Bool
  disableRightSwipe : Bool
  initialCardIndex : ℤ
deriving DecidableEq, Repr

/-- The controller's mutable state: cursor (`currentIndexRef.current`),
history (`swipedCardIndices`), transition lock (`isTransitioning`). -/
structure ControllerState where
  cursor : ℤ
  history : List ℤ
  lock : Bool
deriving DecidableEq, Repr

/-- Notifications the controller surfaces to its embedder
(`onSwipedLeft`, `onSwipedRight`, `onSwipeEnd`, `onSwipeStart`,
`onSwipeBack`). -/
inductive Event where
  | swipedLeft (cardIndex : ℤ)
  | swipedRight (cardIndex : ℤ)
  | swipeEnd (cardIndex : ℤ)
  | swipeStart (direction : SwipeDirection)
  | swipeBackNotify
deriving DecidableEq, Repr

/-- State at widget mount: `currentIndexRef = useRef(initialCardIndex)`,
empty history, lock down. -/
def initState (cfg : Config) : ControllerState :=
  { cursor := cfg.initialCardIndex, history := [], lock := false }

/-- `handleSwipeStart` (part_000 lines 46-49): sets the lock and surfaces
`onSwipeStart(direction)`. -/
def handleSwipeStart (s : ControllerState) (direction : SwipeDirection) :
    ControllerState × List Event :=
  ({ s with lock := true }, [Event.swipeStart direction])

/-- `handleSwipeComplete` (part_000 lines 52-71): records the swiped card,
fires the direction callback (`left` → `onSwipedLeft`, otherwise
`onSwipedRight`) then `onSwipeEnd`, advances the cursor, releases the
lock. -/
def handleSwipeComplete (s : ControllerState) (direction : SwipeDirection) :
    ControllerState × List Event :=
  let cardIndex := s.cursor
  let history := s.history ++ [cardIndex]
  let events :=
    [(match direction with
      | SwipeDirection.left => Event.swipedLeft cardIndex
      | SwipeDirection.right => Event.swipedRight cardIndex),
     Event.swipeEnd cardIndex]
  ({ cursor := s.cursor + 1, history := history, lock := false }, events)

/-- `handleSwipeCancel` (part_000 lines 74-76): only releases the lock. -/
def handleSwipeCancel (s : ControllerState) : ControllerState :=
  { s with lock := false }

/-- `swipeLeft` (part_000 lines 79-88): silently rejected when the
direction is disabled, the lock is held, or the cursor is past the deck;
otherwise a commit trigger is forwarded to the active card. The returned
option is the trigger request (the function itself mutates nothing). -/
def swipeLeft (cfg : Config) (s : ControllerState) :
    ControllerState × Option SwipeDirection :=
  if cfg.disableLeftSwipe = true ∨ s.lock = true ∨ (cfg.numCards : ℤ) ≤ s.cursor then
    (s, none)
  else
    (s, some SwipeDirection.left)

/-- `swipeRight` (part_000 lines 91-100), mirror of `swipeLeft`. -/
def swipeRight (cfg : Config) (s : ControllerState) :
    ControllerState × Option SwipeDirection :=
  if cfg.disableRightSwipe = true ∨ s.lock = true ∨ (cfg.numCards : ℤ) ≤ s.cursor then
    (s, none)
  else
    (s, some SwipeDirection.right)

/-- Modelled from the spec: `swipeUp` is declared in the repository's
public handle type, exercised by its test suite and example app, but has
no implementation under src/. Per spec §4.1 it requests a programmatic
up-commit under the same preconditions as `swipeLeft`/`swipeRight`, gated
by the up-enable flag. The boolean result records whether a commit was
triggered. -/
def swipeUp (swipeUpEnabled : Bool) (cfg : Config) (s : ControllerState) :
    ControllerState × Bool :=
  if swipeUpEnabled = false ∨ s.lock = true ∨ (cfg.numCards : ℤ) ≤ s.cursor then
    (s, false)
  else
    (s, true)

/-- `swipeBack` (part_000 lines 103-111): no-op when the cursor is at or
below 0 or the history is empty; otherwise retreat the cursor, drop the
last history entry (`slice(0, -1)`), surface `onSwipeBack`. -/
def swipeBack (s : ControllerState) : ControllerState × List Event :=
  if s.cursor ≤ 0 ∨ s.history = [] then
    (s, [])
  else
    ({ cursor := s.cursor - 1, history := s.history.dropLast, lock := s.lock },
     [Event.swipeBackNotify])

/-- `jumpToCardIndex` (part_000 lines 114-121): no-op outside
`[0, cards.length)`; otherwise sets the cursor directly, history and lock
untouched. -/
def jumpToCardIndex (cfg : Config) (s : ControllerState) (index : ℤ) :
    ControllerState :=
  if index < 0 ∨ (cfg.numCards : ℤ) ≤ index then s
  else { s with cursor := index }

/-- Whether a direction passes the enable flags (`!disableLeftSwipe` /
`!disableRightSwipe`), checked both in the programmatic entry points and
in `triggerFullSwipe` / the gesture end handler. -/
def dirEnabled (cfg : Config) : SwipeDirection → Bool
  | SwipeDirection.left => !cfg.disableLeftSwipe
  | SwipeDirection.right => !cfg.disableRightSwipe

/-- The methods the controller exposes through `useImperativeHandle`
(part_000 lines 124-129). -/
def exposedHandles : List String :=
  ["swipeLeft", "swipeRight", "swipeBack", "jumpToCardIndex"]

/-- State transition of one committed swipe (the controller-state part of
`handleSwipeComplete`). -/
def commitState (s : ControllerState) (d : SwipeDirection) : ControllerState :=
  (handleSwipeComplete s d).1

/-- A sequence of committed swipes, in order. -/
def commitsAlong (ds : List SwipeDirection) (s : ControllerState) : ControllerState :=
  ds.foldl commitState s

/-- State transition of one `swipeBack` call. -/
def backState (s : ControllerState) : ControllerState :=
  (swipeBack s).1

/-- `n` sequential `swipeBack` calls. -/
def backsN (n : ℕ) (s : ControllerState) : ControllerState :=
  backState^[n] s

/-- States reachable from mount through the public operations and the
notification sinks. A commit decision (gesture release past the threshold
or a programmatic trigger reaching `triggerFullSwipe`) requires an active
card — which exists exactly when `cursor < cards.length` — and an enabled
direction; it fires `handleSwipeStart`. Its exit animation then delivers
`handleSwipeComplete`, which presupposes a pending commit (lock held).
`handleSwipeCancel`, `swipeBack` and `jumpToCardIndex` carry their guards
in their own definitions. -/
inductive Reachable (cfg : Config) : ControllerState → Prop where
  | init : Reachable cfg (initState cfg)
  | start : ∀ s d, Reachable cfg s → dirEnabled cfg d = true →
      s.cursor < (cfg.numCards : ℤ) → Reachable cfg (handleSwipeStart s d).1
  | complete : ∀ s d, Reachable cfg s → s.lock = true →
      Reachable cfg (handleSwipeComplete s d).1
  | cancel : ∀ s, Reachable cfg s → Reachable cfg (handleSwipeCancel s)
  | back : ∀ s, Reachable cfg s → Reachable cfg (swipeBack s).1
  | jump : ∀ s i, Reachable cfg s → Reachable cfg (jumpToCardIndex cfg s i)

/-- Like `Reachable`, but excluding `jumpToCardIndex`: states reachable
through commits, cancels and undos alone. -/
inductive ReachableNoJump (cfg : Config) : ControllerState → Prop where
  | init : ReachableNoJump cfg (initState cfg)
  | start : ∀ s d, ReachableNoJump cfg s → dirEnabled cfg d = true →
      s.cursor < (cfg.numCards : ℤ) → ReachableNoJump cfg (handleSwipeStart s d).1
  | complete : ∀ s d, ReachableNoJump cfg s → s.lock = true →
      ReachableNoJump cfg (handleSwipeComplete s d).1
  | cancel : ∀ s, ReachableNoJump cfg s → ReachableNoJump cfg (handleSwipeCancel s)
  | back : ∀ s, ReachableNoJump cfg s → ReachableNoJump cfg (swipeBack s).1

/-- Configuration with `K + 1` cards, both directions enabled, starting at
card 0; used to exhibit histories longer than any proposed cap `K`. -/
def capConfig (K : ℕ) : Config :=
  { numCards := K + 1, disableLeftSwipe := false, disableRightSwipe := false,
    initialCardIndex := 0 }

/-- The controller state after `n` committed swipes from a fresh mount at
card 0: cursor at `n`, history `[0, 1, …, n-1]`, lock down. -/
def commitTraceState (n : ℕ) : ControllerState :=
  { cursor := (n : ℤ), history := (List.range n).map (fun k : ℕ => (k : ℤ)), lock := false }

/-! ## Card gesture surface (src/src/Card.tsx) -/

/-- The fields of the pan-gesture end event that the surface can observe.
Displacements are real-valued in the platform; modelled as rationals. -/
structure PanEvent where
  translationX : ℚ
  translationY : ℚ
deriving DecidableEq, Repr

/-- Outcome of a gesture release: enter the committing exit animation in a
direction, or spring back to rest. -/
inductive CardOutcome where
  | commit (d : SwipeDirection)
  | snapBack
deriving DecidableEq, Repr

/-- Notifications the card surface can send up to the controller
(`onSwipeStart`, `onSwipeComplete`, `onSwipeCancel` props). -/
inductive CardEvent where
  | start (d : SwipeDirection)
  | complete (d : SwipeDirection)
  | cancel
deriving DecidableEq, Repr

/-- `triggerFullSwipe` (Card.tsx lines 72-99): when the direction is
enabled, fires `onSwipeStart` and starts the exit animation whose finish
callback fires `onSwipeComplete`; the animation is collapsed here, so the
result is the notification sequence in emission order. A disabled
direction does nothing. -/
def triggerFullSwipe (dL dR : Bool) (direction : SwipeDirection) : List CardEvent :=
  match direction with
  | SwipeDirection.left =>
      if dL = false then [CardEvent.start SwipeDirection.left,
                          CardEvent.complete SwipeDirection.left]
      else []
  | SwipeDirection.right =>
      if dR = false then [CardEvent.start SwipeDirection.right,
                          CardEvent.complete SwipeDirection.right]
      else []

/-- `panGesture.onEnd` (Card.tsx lines 125-145): reads `translationX` from
the event, commits iff `|translationX| > swipeThreshold` and the direction
implied by the sign (`translationX > 0 ? 'right' : 'left'`) is enabled;
the remaining branch springs the card back and calls nothing else. The
pair is the decision and the notifications emitted. -/
def panGestureOnEnd (swipeThreshold : ℚ) (dL dR : Bool) (e : PanEvent) :
    CardOutcome × List CardEvent :=
  let translationX := e.translationX
  let swipeDirection : SwipeDirection :=
    if 0 < translationX then SwipeDirection.right else SwipeDirection.left
  if |translationX| > swipeThreshold ∧ swipeDirection = SwipeDirection.left ∧ dL = false then
    (CardOutcome.commit SwipeDirection.left, triggerFullSwipe dL dR SwipeDirection.left)
  else if |translationX| > swipeThreshold ∧ swipeDirection = SwipeDirection.right ∧ dR = false then
    (CardOutcome.commit SwipeDirection.right, triggerFullSwipe dL dR SwipeDirection.right)
  else
    (CardOutcome.snapBack, [])

end SuperSwiper

namespace SuperSwiper

/-! ## Claim C1: effects of a successful commit's completion handler -/

/-- **C1.** For every successful commit, `handleSwipeComplete` appends the
pre-commit cursor to the history, increments the cursor by exactly 1,
clears the transition lock, and emits the direction-specific callback
before the generic end-of-swipe callback, both carrying the consumed
card's index (the pre-increment cursor value). -/
theorem c1_commit_effects (s : ControllerState) (d : SwipeDirection) :
    (handleSwipeComplete s d).1.history = s.history ++ [s.cursor] ∧
    (handleSwipeComplete s d).1.cursor = s.cursor + 1 ∧
    (handleSwipeComplete s d).1.lock = false ∧
    (handleSwipeComplete s d).2 =
      [(match d with
        | SwipeDirection.left => Event.swipedLeft s.cursor
        | SwipeDirection.right => Event.swipedRight s.cursor),
       Event.swipeEnd s.cursor] := by
  cases d <;> simp [handleSwipeComplete]

/-! ## Claim C9: threshold tie-break at gesture release -/

/-- **C9.** A gesture release commits iff the absolute horizontal
displacement strictly exceeds `swipeThreshold` and the direction implied
by its sign is enabled; concretely, with `swipeThreshold = 100` a release
at `+100` does not commit, `+100.01` commits right, `-100.01` commits
left. -/
theorem c9_threshold_tie_break :
    (∀ (th : ℚ) (dL dR : Bool) (e : PanEvent),
        ((panGestureOnEnd th dL dR e).1 = CardOutcome.commit SwipeDirection.right ↔
          |e.translationX| > th ∧ 0 < e.translationX ∧ dR = false) ∧
        ((panGestureOnEnd th dL dR e).1 = CardOutcome.commit SwipeDirection.left ↔
          |e.translationX| > th ∧ ¬0 < e.translationX ∧ dL = false)) ∧
    (panGestureOnEnd 100 false false ⟨100, 0⟩).1 = CardOutcome.snapBack ∧
    (panGestureOnEnd 100 false false ⟨100.01, 0⟩).1 =
      CardOutcome.commit SwipeDirection.right ∧
    (panGestureOnEnd 100 false false ⟨-100.01, 0⟩).1 =
      CardOutcome.commit SwipeDirection.left := by
  refine ⟨?_, by decide, ?_, ?_⟩
  · intro th dL dR e
    simp only [panGestureOnEnd]
    split_ifs <;> simp_all
  · norm_num [panGestureOnEnd, triggerFullSwipe, abs_of_nonneg]
    rfl
  · norm_num [panGestureOnEnd, triggerFullSwipe, abs_of_nonpos]

/-! ## Claim C10: the commit decision depends only on horizontal displacement -/

/-- **C10.** The commit-versus-cancel decision and the chosen direction
are a function of the horizontal displacement alone: two releases with
equal `translationX` produce identical outcomes and notifications
regardless of `translationY`, and (for a nonnegative threshold) a purely
vertical drag never commits. -/
theorem c10_horizontal_only :
    (∀ (th : ℚ) (dL dR : Bool) (e₁ e₂ : PanEvent),
        e₁.translationX = e₂.translationX →
        panGestureOnEnd th dL dR e₁ = panGestureOnEnd th dL dR e₂) ∧
    (∀ (th : ℚ) (dL dR : Bool) (e : PanEvent),
        0 ≤ th → e.translationX = 0 →
        (panGestureOnEnd th dL dR e).1 = CardOutcome.snapBack) := by
  constructor
  · intro th dL dR e₁ e₂ h
    simp only [panGestureOnEnd, h]
  · intro th dL dR e hth hx
    have hno : ¬|e.translationX| > th := by
      rw [hx]
      simpa using hth
    simp [panGestureOnEnd, hno]

/-- Witness for C10 at concrete inputs. -/
theorem c10_horizontal_only_witness :
    panGestureOnEnd 100 false false ⟨30, 5⟩ = panGestureOnEnd 100 false false ⟨30, 999⟩ ∧
    (panGestureOnEnd 100 false false ⟨0, 500⟩).1 = CardOutcome.snapBack :=
  ⟨c10_horizontal_only.1 100 false false ⟨30, 5⟩ ⟨30, 999⟩ rfl,
   c10_horizontal_only.2 100 false false ⟨0, 500⟩ (by norm_num) rfl⟩

/-! ## Claim C7: cancel notification on a failed commit test -/

/-- **C7.** At a release that fails the commit test (e.g. displacement 50
against threshold 100) the surface snaps back but emits no notification at
all: the cancel notification is never emitted by `panGesture.onEnd` on any
input, even though `CardProps.onSwipeCancel` documents it and the
controller wires `handleSwipeCancel` (which would clear only the lock) to
it. -/
theorem c7_cancel_never_notified :
    panGestureOnEnd 100 false false ⟨50, 0⟩ = (CardOutcome.snapBack, []) ∧
    (∀ (th : ℚ) (dL dR : Bool) (e : PanEvent),
        ((panGestureOnEnd th dL dR e).2.count CardEvent.cancel) = 0) ∧
    (∀ s : ControllerState, handleSwipeCancel s =
      { cursor := s.cursor, history := s.history, lock := false }) := by
  refine ⟨by decide, ?_, ?_⟩
  · intro th dL dR e
    simp only [panGestureOnEnd, triggerFullSwipe]
    split_ifs <;> simp
  · intro s
    rfl

/-! ## Helper lemmas about the commit / undo transitions -/

theorem commitState_cursor (s : ControllerState) (d : SwipeDirection) :
    (commitState s d).cursor = s.cursor + 1 := rfl

theorem commitState_history (s : ControllerState) (d : SwipeDirection) :
    (commitState s d).history = s.history ++ [s.cursor] := rfl

theorem commitState_lock (s : ControllerState) (d : SwipeDirection) :
    (commitState s d).lock = false := rfl

theorem backState_commitState (s : ControllerState) (d : SwipeDirection)
    (h : 0 ≤ s.cursor) : backState (commitState s d) = { s with lock := false } := by
  have hg : ¬((commitState s d).cursor ≤ 0 ∨ (commitState s d).history = []) := by
    rw [commitState_cursor, commitState_history]
    simp
    omega
  simp only [backState, swipeBack, if_neg hg, commitState_cursor, commitState_history,
    commitState_lock, List.dropLast_concat]
  rw [if_neg (show ¬(s.cursor + 1 ≤ 0 ∨ s.history ++ [s.cursor] = []) by simp; omega)]
  simp

theorem backsN_commitsAlong (ds : List SwipeDirection) :
    ∀ s : ControllerState, 0 ≤ s.cursor → s.lock = false →
      backsN ds.length (commitsAlong ds s) = s := by
  induction ds with
  | nil =>
      intro s h0 hl
      rfl
  | cons d ds ih =>
      intro s h0 hl
      have hIH : backsN ds.length (commitsAlong ds (commitState s d)) = commitState s d :=
        ih (commitState s d) (by rw [commitState_cursor]; omega) (commitState_lock s d)
      calc backsN (d :: ds).length (commitsAlong (d :: ds) s)
          = backState (backsN ds.length (commitsAlong ds (commitState s d))) := by
            simp only [List.length_cons, commitsAlong, List.foldl_cons, backsN,
              Function.iterate_succ_apply']
        _ = backState (commitState s d) := by rw [hIH]
        _ = { s with lock := false } := backState_commitState s d h0
        _ = s := by
            cases s
            simp_all

theorem range_map_shift (c : ℤ) (n : ℕ) :
    (List.range (n + 1)).map (fun k : ℕ => c + (k : ℤ)) =
      c :: (List.range n).map (fun k : ℕ => (c + 1) + (k : ℤ)) := by
  rw [List.range_succ_eq_map, List.map_cons, List.map_map]
  have hf : ((fun k : ℕ => c + (k : ℤ)) ∘ Nat.succ) =
      (fun k : ℕ => (c + 1) + (k : ℤ)) := by
    funext k
    simp only [Function.comp_apply]
    push_cast
    ring
  rw [hf]
  simp

theorem commitsAlong_spec (ds : List SwipeDirection) :
    ∀ s : ControllerState,
      (commitsAlong ds s).history =
        s.history ++ (List.range ds.length).map (fun k : ℕ => s.cursor + (k : ℤ)) ∧
      (commitsAlong ds s).cursor = s.cursor + (ds.length : ℤ) := by
  induction ds with
  | nil =>
      intro s
      simp [commitsAlong]
  | cons d ds ih =>
      intro s
      have hstep : commitsAlong (d :: ds) s = commitsAlong ds (commitState s d) := rfl
      have h := ih (commitState s d)
      constructor
      · rw [hstep, h.1, commitState_history, commitState_cursor, List.length_cons,
          range_map_shift, List.append_assoc]
        rfl
      · rw [hstep, h.2, commitState_cursor, List.length_cons]
        push_cast
        ring

theorem capTrace_reachable (K : ℕ) :
    ∀ n, n ≤ K + 1 → Reachable (capConfig K) (commitTraceState n) := by
  intro n
  induction n with
  | zero =>
      intro _
      exact Reachable.init
  | succ n ih =>
      intro h
      have hr := ih (by omega)
      have h1 := Reachable.start (commitTraceState n)
        SwipeDirection.right hr rfl
        (by simp only [commitTraceState, capConfig]; push_cast; omega)
      have h2 := Reachable.complete _ SwipeDirection.right h1 rfl
      have heq : (handleSwipeComplete
          (handleSwipeStart (commitTraceState n) SwipeDirection.right).1
          SwipeDirection.right).1 = commitTraceState (n + 1) := by
        simp [handleSwipeStart, handleSwipeComplete, commitTraceState, List.range_succ]
      rw [heq] at h2
      exact h2

theorem reachable_bounds (cfg : Config) (h0 : 0 ≤ cfg.initialCardIndex)
    (h1 : cfg.initialCardIndex ≤ (cfg.numCards : ℤ)) :
    ∀ s, Reachable cfg s →
      0 ≤ s.cursor ∧ s.cursor ≤ (cfg.numCards : ℤ) ∧
      (s.lock = true → s.cursor < (cfg.numCards : ℤ)) := by
  intro s h
  induction h with
  | init => exact ⟨h0, h1, by simp [initState]⟩
  | start s' d hr hd hc ih => exact ⟨ih.1, ih.2.1, fun _ => hc⟩
  | complete s' d hr hl ih =>
      have ha := ih.1
      have hb := ih.2.2 hl
      refine ⟨?_, ?_, ?_⟩
      · show 0 ≤ s'.cursor + 1
        omega
      · show s'.cursor + 1 ≤ (cfg.numCards : ℤ)
        omega
      · intro hlk
        exact absurd hlk (by simp [handleSwipeComplete])
  | cancel s' hr ih =>
      exact ⟨ih.1, ih.2.1, fun hlk => absurd hlk (by simp [handleSwipeCancel])⟩
  | back s' hr ih =>
      have ha := ih.1
      have hb := ih.2.1
      by_cases hg : s'.cursor ≤ 0 ∨ s'.history = []
      · simpa [swipeBack, hg] using ih
      · have hc0 : ¬s'.cursor ≤ 0 := (not_or.mp hg).1
        refine ⟨?_, ?_, ?_⟩
        · simp only [swipeBack, if_neg hg]
          omega
        · simp only [swipeBack, if_neg hg]
          omega
        · simp only [swipeBack, if_neg hg]
          intro _
          omega
  | jump s' i hr ih =>
      by_cases hg : i < 0 ∨ (cfg.numCards : ℤ) ≤ i
      · simpa [jumpToCardIndex, hg] using ih
      · have hi0 : ¬i < 0 := (not_or.mp hg).1
        have hiN : ¬(cfg.numCards : ℤ) ≤ i := (not_or.mp hg).2
        refine ⟨?_, ?_, ?_⟩
        · simp only [jumpToCardIndex, if_neg hg]
          omega
        · simp only [jumpToCardIndex, if_neg hg]
          omega
        · simp only [jumpToCardIndex, if_neg hg]
          intro _
          omega

/-! ## Claim C2: `length(history) ≤ cursor` in every reachable state -/

/-- **C2 counterexample.** The invariant `length(history) ≤ cursor` fails
on a reachable state: with one card, commit it (cursor 1, history `[0]`),
then `jumpToCardIndex(0)` — cursor is 0 while the history still has one
entry. -/
theorem c2_counterexample :
    ¬ ∀ (s : ControllerState), Reachable (capConfig 0) s →
        (s.history.length : ℤ) ≤ s.cursor := by
  intro h
  have hr := Reachable.jump (commitTraceState 1) 0 (capTrace_reachable 0 1 le_rfl)
  have heq : jumpToCardIndex (capConfig 0) (commitTraceState 1) 0 =
      { cursor := 0, history := [(0 : ℤ)], lock := false } := by decide
  rw [heq] at hr
  have hbad := h _ hr
  norm_num at hbad

/-- **C2 amended.** `length(history) ≤ cursor` holds in every state
reachable (from a mount with a nonnegative starting index) through
commits, cancels and undos alone — i.e. without `jumpToCardIndex`, which
is the one operation that moves the cursor without touching history. -/
theorem c2_history_le_cursor_without_jump (cfg : Config) (s : ControllerState)
    (h0 : 0 ≤ cfg.initialCardIndex) (h : ReachableNoJump cfg s) :
    (s.history.length : ℤ) ≤ s.cursor := by
  induction h with
  | init => simpa [initState] using h0
  | start s' d hr hd hc ih => simpa [handleSwipeStart] using ih
  | complete s' d hr hl ih =>
      simp only [handleSwipeComplete, List.length_append, List.length_cons,
        List.length_nil]
      push_cast
      omega
  | cancel s' hr ih => simpa [handleSwipeCancel] using ih
  | back s' hr ih =>
      by_cases hg : s'.cursor ≤ 0 ∨ s'.history = []
      · simpa [swipeBack, hg] using ih
      · have hne : s'.history ≠ [] := (not_or.mp hg).2
        have hpos : 0 < s'.history.length := List.length_pos.mpr hne
        simp only [swipeBack, if_neg hg, List.length_dropLast]
        omega

/-- Witness for the amended C2 at a concrete configuration. -/
theorem c2_history_le_cursor_without_jump_witness :
    (((initState ⟨2, false, false, 0⟩).history.length : ℤ)) ≤
      (initState ⟨2, false, false, 0⟩).cursor :=
  c2_history_le_cursor_without_jump _ _ (by decide) ReachableNoJump.init

/-! ## Claim C3: N undos invert N commits -/

/-- **C3.** From the initial state, any sequence of N committed swipes
followed by N `swipeBack()` calls restores the initial cursor and empty
history, and one further `swipeBack()` changes nothing. -/
theorem c3_undo_round_trip (cfg : Config) (ds : List SwipeDirection)
    (h0 : 0 ≤ cfg.initialCardIndex) :
    (backsN ds.length (commitsAlong ds (initState cfg))).cursor =
      cfg.initialCardIndex ∧
    (backsN ds.length (commitsAlong ds (initState cfg))).history = [] ∧
    swipeBack (backsN ds.length (commitsAlong ds (initState cfg))) =
      (backsN ds.length (commitsAlong ds (initState cfg)), []) := by
  have h := backsN_commitsAlong ds (initState cfg) (by simpa [initState] using h0) rfl
  rw [h]
  exact ⟨rfl, rfl, by simp [swipeBack, initState]⟩

/-- Witness for C3: two right/left commits then two undos on a five-card
deck. -/
theorem c3_undo_round_trip_witness :
    (backsN 2 (commitsAlong [SwipeDirection.right, SwipeDirection.left]
        (initState ⟨5, false, false, 0⟩))).cursor = 0 ∧
    (backsN 2 (commitsAlong [SwipeDirection.right, SwipeDirection.left]
        (initState ⟨5, false, false, 0⟩))).history = [] ∧
    swipeBack (backsN 2 (commitsAlong [SwipeDirection.right, SwipeDirection.left]
        (initState ⟨5, false, false, 0⟩))) =
      (backsN 2 (commitsAlong [SwipeDirection.right, SwipeDirection.left]
        (initState ⟨5, false, false, 0⟩)), []) :=
  c3_undo_round_trip ⟨5, false, false, 0⟩ [SwipeDirection.right, SwipeDirection.left]
    (by decide)

/-! ## Claim C4: behavior under the transition lock -/

/-- **C4.** While the lock is held, `swipeLeft`, `swipeRight` and the
(spec-modelled) `swipeUp` are silent no-ops that trigger no commit,
whereas `jumpToCardIndex` and `swipeBack` compute exactly the same
cursor/history/notifications as with the lock down (only the untouched
lock bit differs). -/
theorem c4_lock_exclusion (cfg : Config) (s : ControllerState) (hl : s.lock = true) :
    swipeLeft cfg s = (s, none) ∧
    swipeRight cfg s = (s, none) ∧
    (∀ u : Bool, swipeUp u cfg s = (s, false)) ∧
    (∀ i : ℤ,
        jumpToCardIndex cfg { s with lock := true } i =
          { jumpToCardIndex cfg { s with lock := false } i with lock := true }) ∧
    (swipeBack { s with lock := true }).1 =
      { (swipeBack { s with lock := false }).1 with lock := true } ∧
    (swipeBack { s with lock := true }).2 = (swipeBack { s with lock := false }).2 := by
  refine ⟨?_, ?_, ?_, ?_, ?_, ?_⟩
  · simp [swipeLeft, hl]
  · simp [swipeRight, hl]
  · intro u
    simp [swipeUp, hl]
  · intro i
    simp only [jumpToCardIndex]
    split_ifs <;> rfl
  · simp only [swipeBack]
    split_ifs <;> rfl
  · simp only [swipeBack]
    split_ifs <;> rfl

/-- Witness for C4 at a locked concrete state. -/
theorem c4_lock_exclusion_witness :
    swipeLeft ⟨2, false, false, 0⟩ ⟨0, [], true⟩ = (⟨0, [], true⟩, none) :=
  (c4_lock_exclusion ⟨2, false, false, 0⟩ ⟨0, [], true⟩ rfl).1

/-! ## Claim C5: retention cap on history -/

/-- **C5 counterexample.** No fixed cap `K` bounds the history of every
reachable state: for any proposed `K`, a deck of `K + 1` cards swiped to
exhaustion reaches a history of length `K + 1`. -/
theorem c5_counterexample :
    ¬ ∃ K : ℕ, ∀ (cfg : Config) (s : ControllerState),
        Reachable cfg s → s.history.length ≤ K := by
  rintro ⟨K, hK⟩
  have h := hK (capConfig K) (commitTraceState (K + 1))
    (capTrace_reachable K (K + 1) le_rfl)
  simp only [commitTraceState, List.length_map, List.length_range] at h
  omega

/-- **C5 amended.** There is no retention cap at all: the completion
handler appends unconditionally, so after any sequence of commits from
mount the history holds exactly the consumed indices, in order, one per
commit — its length equals the number of commits (bounded only through
the cursor by the deck length, not by a policy constant). -/
theorem c5_no_retention_cap (cfg : Config) (ds : List SwipeDirection) :
    (commitsAlong ds (initState cfg)).history =
      (List.range ds.length).map (fun k : ℕ => cfg.initialCardIndex + (k : ℤ)) ∧
    (commitsAlong ds (initState cfg)).history.length = ds.length := by
  have h := (commitsAlong_spec ds (initState cfg)).1
  have hh : (commitsAlong ds (initState cfg)).history =
      (List.range ds.length).map (fun k : ℕ => cfg.initialCardIndex + (k : ℤ)) := by
    simpa [initState] using h
  exact ⟨hh, by rw [hh]; simp⟩

/-! ## Claim C6: the `swipeUp` operation -/

/-- **C6.** The controller exposes no `swipeUp` handle — the object
returned by `useImperativeHandle` has only `swipeLeft`, `swipeRight`,
`swipeBack` and `jumpToCardIndex` — and the implementation's
`SwipeDirection` has no up case at all, so no up-specific completion
notification can ever be emitted. -/
theorem c6_no_swipe_up :
    "swipeUp" ∉ exposedHandles ∧
    ∀ d : SwipeDirection, d = SwipeDirection.left ∨ d = SwipeDirection.right := by
  refine ⟨by decide, ?_⟩
  intro d
  cases d
  · exact Or.inl rfl
  · exact Or.inr rfl

/-! ## Claim C8: cursor bounds and the exhausted stack -/

/-- **C8.** In every reachable state of a validly configured controller
(`0 ≤ initialCardIndex ≤ length(cards)`), `0 ≤ cursor ≤ length(cards)`;
and whenever the cursor has reached the end of the deck, `swipeRight()` is
a silent no-op that cannot advance it further. -/
theorem c8_cursor_bounds (cfg : Config) (s : ControllerState)
    (h0 : 0 ≤ cfg.initialCardIndex) (h1 : cfg.initialCardIndex ≤ (cfg.numCards : ℤ))
    (hr : Reachable cfg s) :
    (0 ≤ s.cursor ∧ s.cursor ≤ (cfg.numCards : ℤ)) ∧
    ((cfg.numCards : ℤ) ≤ s.cursor → swipeRight cfg s = (s, none)) := by
  have h := reachable_bounds cfg h0 h1 s hr
  refine ⟨⟨h.1, h.2.1⟩, fun hx => ?_⟩
  simp [swipeRight, hx]

/-- Witness for C8 at a freshly mounted two-card deck. -/
theorem c8_cursor_bounds_witness :
    ((0 ≤ (initState ⟨2, false, false, 0⟩).cursor ∧
        (initState ⟨2, false, false, 0⟩).cursor ≤ ((2 : ℕ) : ℤ)) ∧
      (((2 : ℕ) : ℤ) ≤ (initState ⟨2, false, false, 0⟩).cursor →
        swipeRight ⟨2, false, false, 0⟩ (initState ⟨2, false, false, 0⟩) =
          (initState ⟨2, false, false, 0⟩, none))) :=
  c8_cursor_bounds ⟨2, false, false, 0⟩ _ (by decide) (by decide) Reachable.init

end SuperSwiper
